import Mathlib

/-!
# Verification of the word_stat incremental synchronization engine

Shallow embedding, in Lean 4, of the core logic of the `word_stat`
repository (Python): the Yandex WordStat client (`yandex_wordstat_api.py`),
the Google Trends client (`google_trends_api.py`), the influenza bulletin
parser (`influenza_stat_parser.py`) and the persistence layer
(`postgres.py`).  Pure helper functions are translated directly; stateful
code is translated to explicit state passing, with the behaviour of the
external providers and of the database supplied as explicit parameters.
-/

namespace WordStat

/-! ## `chunks` (yandex_wordstat_api.py, bottom of file)

Python:
```
def chunks(sequence, n):
    for i in range(0, len(sequence), n):
        yield sequence[i:i + n]
```
For `n = 0` the Python `range` raises `ValueError`; the Lean rendering is
therefore only meaningful for `0 < n`, and returns `[]` at `n = 0`.
`sequence[i:i+n]` for increasing `i` in steps of `n` is exactly
"take `n`, then recurse on the remainder". -/

def chunks {α : Type} (sequence : List α) (n : Nat) : List (List α) :=
  if n = 0 then []
  else if sequence.isEmpty then []
  else sequence.take n :: chunks (sequence.drop n) n
termination_by sequence.length
decreasing_by
  rename_i h1 h2
  simp [List.isEmpty_iff] at h2
  have hlen : 0 < sequence.length := List.length_pos.mpr h2
  have hn : 0 < n := Nat.pos_of_ne_zero h1
  simp [List.length_drop]
  omega

theorem chunks_nil {α : Type} (n : Nat) : chunks ([] : List α) n = [] := by
  rw [chunks]
  simp

theorem chunks_zero {α : Type} (s : List α) : chunks s 0 = [] := by
  rw [chunks]
  simp

theorem chunks_cons {α : Type} (s : List α) (n : Nat) (hn : n ≠ 0) (hs : s ≠ []) :
    chunks s n = s.take n :: chunks (s.drop n) n := by
  rw [chunks]
  simp [hn, List.isEmpty_iff, hs]

/-- Concatenating the chunks gives back the sequence. -/
theorem chunks_flatten {α : Type} (s : List α) (n : Nat) (hn : 0 < n) :
    (chunks s n).flatten = s := by
  generalize hlen : s.length = len
  induction len using Nat.strong_induction_on generalizing s with
  | _ len ih =>
    by_cases hs : s = []
    · subst hs
      simp [chunks_nil]
    · rw [chunks_cons s n (Nat.pos_iff_ne_zero.mp hn) hs]
      have hdrop : (s.drop n).length < len := by
        have : 0 < s.length := List.length_pos.mpr hs
        simp [List.length_drop]
        omega
      simp only [List.flatten_cons]
      rw [ih (s.drop n).length hdrop (s.drop n) rfl]
      exact List.take_append_drop n s

/-- Every chunk is non-empty and has length at most `n`. -/
theorem chunks_mem_length {α : Type} (s : List α) (n : Nat) (hn : 0 < n)
    (c : List α) (hc : c ∈ chunks s n) : c ≠ [] ∧ c.length ≤ n := by
  generalize hlen : s.length = len
  induction len using Nat.strong_induction_on generalizing s with
  | _ len ih =>
    by_cases hs : s = []
    · subst hs
      simp [chunks_nil] at hc
    · rw [chunks_cons s n (Nat.pos_iff_ne_zero.mp hn) hs] at hc
      rcases List.mem_cons.mp hc with h | h
      · subst h
        constructor
        · have hpos : 0 < s.length := List.length_pos.mpr hs
          intro habs
          have h0 : (s.take n).length = 0 := by rw [habs]; rfl
          rw [List.length_take] at h0
          omega
        · simp
      · have hdrop : (s.drop n).length < len := by
          have : 0 < s.length := List.length_pos.mpr hs
          simp [List.length_drop]
          omega
        exact ih (s.drop n).length hdrop (s.drop n) h rfl

/-- Every chunk but possibly the last has length exactly `n`. -/
theorem chunks_dropLast_length {α : Type} (s : List α) (n : Nat) (hn : 0 < n)
    (c : List α) (hc : c ∈ (chunks s n).dropLast) : c.length = n := by
  generalize hlen : s.length = len
  induction len using Nat.strong_induction_on generalizing s with
  | _ len ih =>
    by_cases hs : s = []
    · subst hs
      simp [chunks_nil] at hc
    · rw [chunks_cons s n (Nat.pos_iff_ne_zero.mp hn) hs] at hc
      have hdrop : (s.drop n).length < len := by
        have : 0 < s.length := List.length_pos.mpr hs
        simp [List.length_drop]
        omega
      by_cases hrest : chunks (s.drop n) n = []
      · rw [hrest] at hc
        simp at hc
      · rw [List.dropLast_cons_of_ne_nil hrest] at hc
        rcases List.mem_cons.mp hc with h | h
        · subst h
          -- the head chunk is `s.take n`; the tail of chunks is non-empty,
          -- so `s.drop n ≠ []`, hence `n ≤ s.length` and the take is full
          have hsdrop : s.drop n ≠ [] := by
            intro habs
            rw [habs, chunks_nil] at hrest
            exact hrest rfl
          have : n ≤ s.length := by
            by_contra hlt
            push_neg at hlt
            have : s.drop n = [] := List.drop_eq_nil_of_le (Nat.le_of_lt hlt)
            exact hsdrop this
          simp [List.length_take]
          omega
        · exact ih (s.drop n).length hdrop (s.drop n) h rfl

/-! ## Google Trends week remap (google_trends_api.py, `save_data_to_db`)

Python (lines 99-117):
```
year = self.date_start.year
df['date'] = df['date'].dt.isocalendar().week
# Change numbers because weeks in downloaded df starts with Sunday
if df['date'][0] == 52:
    df['date'][0] = 0
    df['date'] += 1
phrase = df.columns[1]
data = []
for index, row in df.iterrows():
    data.append((year, row['date'], phrase, row[phrase]))
... db.insert_values_into_google_trends_stat_table(data)
```
The `date` column after the `isocalendar().week` conversion is the list of
ISO week numbers of the raw dates, in row order. -/

/-- The transformation applied to the ISO-week column: if the first entry is
52, set it to 0 and then add 1 to every entry; otherwise leave the column
unchanged. -/
def remapWeeks (weeks : List Nat) : List Nat :=
  if weeks.head? = some 52 then (weeks.set 0 0).map (· + 1) else weeks

/-- The rows appended to `data` and passed to
`insert_values_into_google_trends_stat_table`: one `(year, week, phrase,
value)` tuple per dataframe row, with the week column already remapped. -/
def save_data_to_db (year : Nat) (phrase : String) (weeks : List Nat)
    (values : List Int) : List (Nat × Nat × String × Int) :=
  ((remapWeeks weeks).zip values).map (fun p => (year, p.1, phrase, p.2))

/-! ## De-duplication (postgres.py)

`delete_duplicates_from_google_trends_stat_table` (lines 137-155) and
`delete_duplicates_from_yandex_word_stat_table` (lines 229-247) run the same
SQL modulo table and column names:
```
DELETE FROM <table>
 WHERE ctid IN
      (SELECT ctid
         FROM (SELECT ctid,
                      row_number() OVER (PARTITION BY year, <period>, phrase
                      ORDER BY id DESC) AS row_num
                 FROM <table>
              ) t
        WHERE t.row_num > 1);
```
A row is deleted exactly when its partition rank, ordering by `id`
descending, is greater than one.  Both tables declare `id SERIAL PRIMARY
KEY`, so ids are pairwise distinct and the rank of a row is greater than one
iff some row of the same partition has a strictly larger `id`. -/

structure StatRow where
  id : Nat
  year : Int
  period : Int
  phrase : String
  value : Int
deriving DecidableEq, Repr

/-- `PARTITION BY year, <period>, phrase`: two rows fall in the same
partition when they agree on the natural key. -/
def sameKey (r r' : StatRow) : Bool :=
  r.year == r'.year && r.period == r'.period && r.phrase == r'.phrase

/-- `row_number() OVER (PARTITION BY ... ORDER BY id DESC) > 1` under
distinct ids: some same-key row has a strictly larger id. -/
def isDuplicate (t : List StatRow) (r : StatRow) : Bool :=
  t.any (fun r' => sameKey r r' && r.id < r'.id)

/-- The de-duplication pass: delete every row whose partition rank by
descending id exceeds 1, i.e. keep the rows that are not duplicates. -/
def delete_duplicates_from_stat_table (t : List StatRow) : List StatRow :=
  t.filter (fun r => !(isDuplicate t r))

theorem sameKey_refl (r : StatRow) : sameKey r r = true := by
  simp [sameKey]

theorem sameKey_symm {r r' : StatRow} (h : sameKey r r' = true) :
    sameKey r' r = true := by
  simp [sameKey] at *
  tauto

theorem sameKey_trans {r r' r'' : StatRow} (h : sameKey r r' = true)
    (h' : sameKey r' r'' = true) : sameKey r r'' = true := by
  simp [sameKey] at h h' ⊢
  obtain ⟨⟨h1, h2⟩, h3⟩ := h
  obtain ⟨⟨h4, h5⟩, h6⟩ := h'
  exact ⟨⟨h1.trans h4, h2.trans h5⟩, h3.trans h6⟩

/-- A kept row has the largest id among the rows of its key. -/
theorem mem_delete_duplicates_le {t : List StatRow} {r : StatRow}
    (hr : r ∈ delete_duplicates_from_stat_table t) :
    r ∈ t ∧ ∀ r' ∈ t, sameKey r r' = true → r'.id ≤ r.id := by
  rw [delete_duplicates_from_stat_table, List.mem_filter] at hr
  obtain ⟨hmem, hcond⟩ := hr
  refine ⟨hmem, fun r' hr' hk => ?_⟩
  simp only [isDuplicate, Bool.not_eq_true', List.any_eq_false] at hcond
  have := hcond r' hr'
  simp [hk] at this
  omega

/-- Every key present in the table keeps at least one row: the row of the
key with the largest id survives. -/
theorem delete_duplicates_key_survives (t : List StatRow) (r : StatRow)
    (hr : r ∈ t) :
    ∃ r', r' ∈ delete_duplicates_from_stat_table t ∧ sameKey r r' = true := by
  classical
  set g := t.filter (fun r' => sameKey r r') with hg
  have hrg : r ∈ g := by
    rw [hg, List.mem_filter]
    exact ⟨hr, sameKey_refl r⟩
  have hne : g ≠ [] := List.ne_nil_of_mem hrg
  obtain ⟨m, hm⟩ : ∃ m, m ∈ g.argmax (fun x => x.id) := by
    cases hma : g.argmax (fun x => x.id) with
    | none => exact absurd (List.argmax_eq_none.mp hma) hne
    | some m => exact ⟨m, rfl⟩
  have hmg : m ∈ g := List.argmax_mem hm
  have hmt : m ∈ t := (List.mem_filter.mp hmg).1
  have hmk : sameKey r m = true := (List.mem_filter.mp hmg).2
  refine ⟨m, ?_, hmk⟩
  rw [delete_duplicates_from_stat_table, List.mem_filter]
  refine ⟨hmt, ?_⟩
  simp only [isDuplicate, Bool.not_eq_true', List.any_eq_false]
  intro r' hr'
  by_cases hk : sameKey m r' = true
  · have hr'g : r' ∈ g := by
      rw [hg, List.mem_filter]
      exact ⟨hr', sameKey_trans hmk hk⟩
    have : r'.id ≤ m.id := List.le_of_mem_argmax hr'g hm
    simp [hk]
    omega
  · simp at hk
    simp [hk]

/-- The pass is idempotent: a second run deletes nothing. -/
theorem delete_duplicates_idem (t : List StatRow) :
    delete_duplicates_from_stat_table (delete_duplicates_from_stat_table t) =
      delete_duplicates_from_stat_table t := by
  apply List.filter_eq_self.mpr
  intro r hr
  have hle := (mem_delete_duplicates_le hr).2
  simp only [isDuplicate, Bool.not_eq_true', List.any_eq_false]
  intro r' hr'
  have hr't : r' ∈ t := (mem_delete_duplicates_le hr').1
  by_cases hk : sameKey r r' = true
  · have := hle r' hr't hk
    simp [hk]
    omega
  · simp at hk
    simp [hk]

/-- With pairwise distinct ids, two kept rows of the same key coincide. -/
theorem delete_duplicates_unique {t : List StatRow}
    (hids : (t.map (fun r => r.id)).Nodup) :
    ∀ r1 ∈ delete_duplicates_from_stat_table t,
      ∀ r2 ∈ delete_duplicates_from_stat_table t,
        sameKey r1 r2 = true → r1 = r2 := by
  intro r1 h1 r2 h2 hk
  obtain ⟨h1t, h1max⟩ := mem_delete_duplicates_le h1
  obtain ⟨h2t, h2max⟩ := mem_delete_duplicates_le h2
  have hle1 : r2.id ≤ r1.id := h1max r2 h2t hk
  have hle2 : r1.id ≤ r2.id := h2max r1 h1t (sameKey_symm hk)
  have hid : r1.id = r2.id := Nat.le_antisymm hle2 hle1
  exact List.inj_on_of_nodup_map hids h1t h2t hid

/-- C3: on every table state with pairwise distinct ids (`id SERIAL PRIMARY
KEY`), the de-duplication pass leaves at most one row per natural key
`(year, period, phrase)`, the surviving row of each key has the largest
(most recently inserted) id, every key that had a row keeps one, and the
pass is idempotent. -/
theorem claim_C3_dedup (t : List StatRow)
    (hids : (t.map (fun r => r.id)).Nodup) :
    (∀ r1 ∈ delete_duplicates_from_stat_table t,
       ∀ r2 ∈ delete_duplicates_from_stat_table t,
         sameKey r1 r2 = true → r1 = r2) ∧
    (∀ r ∈ delete_duplicates_from_stat_table t,
       ∀ r' ∈ t, sameKey r r' = true → r'.id ≤ r.id) ∧
    (∀ r ∈ t, ∃ r', r' ∈ delete_duplicates_from_stat_table t ∧
       sameKey r r' = true) ∧
    delete_duplicates_from_stat_table (delete_duplicates_from_stat_table t) =
      delete_duplicates_from_stat_table t := by
  refine ⟨delete_duplicates_unique hids, ?_, ?_, delete_duplicates_idem t⟩
  · intro r hr
    exact (mem_delete_duplicates_le hr).2
  · intro r hr
    exact delete_duplicates_key_survives t r hr

/-- A three-row table in which rows 1 and 2 share the key
`(2022, 5, "flu")`: de-duplication keeps the higher id of the pair. -/
def dedupSample : List StatRow :=
  [⟨1, 2022, 5, "flu", 10⟩, ⟨2, 2022, 5, "flu", 20⟩, ⟨3, 2022, 6, "flu", 7⟩]

theorem claim_C3_dedup_witness :
    ((dedupSample.map (fun r => r.id)).Nodup) ∧
    ((∀ r1 ∈ delete_duplicates_from_stat_table dedupSample,
        ∀ r2 ∈ delete_duplicates_from_stat_table dedupSample,
          sameKey r1 r2 = true → r1 = r2) ∧
     (∀ r ∈ delete_duplicates_from_stat_table dedupSample,
        ∀ r' ∈ dedupSample, sameKey r r' = true → r'.id ≤ r.id) ∧
     (∀ r ∈ dedupSample, ∃ r',
        r' ∈ delete_duplicates_from_stat_table dedupSample ∧
        sameKey r r' = true) ∧
     delete_duplicates_from_stat_table
         (delete_duplicates_from_stat_table dedupSample) =
       delete_duplicates_from_stat_table dedupSample) :=
  ⟨by decide, claim_C3_dedup dedupSample (by decide)⟩

/-- C6: when the first raw date of a Trends series buckets into ISO week 52
(the Sunday-anchored week preceding the target year), the stored week number
of the first bucket is 1, never 0: `save_data_to_db` sets it to 0 and then
increments the whole column by 1 before building the rows to insert. -/
theorem claim_C6_week52_remap (year : Nat) (phrase : String) (weeks : List Nat)
    (values : List Int) (h52 : weeks.head? = some 52)
    (hlen : values.length = weeks.length) :
    remapWeeks weeks = (weeks.set 0 0).map (· + 1) ∧
    (remapWeeks weeks).head? = some 1 ∧
    ((save_data_to_db year phrase weeks values).map
        (fun r => r.2.1)).head? = some 1 := by
  cases weeks with
  | nil => simp at h52
  | cons w ws =>
    cases values with
    | nil => simp at hlen
    | cons v vs =>
      have hw : w = 52 := by simpa using h52
      subst hw
      refine ⟨by simp [remapWeeks], by simp [remapWeeks], ?_⟩
      simp [save_data_to_db, remapWeeks]

theorem claim_C6_week52_remap_witness :
    ([52, 52, 1].head? = some 52) ∧
    (([(-3 : Int), 7, 9].length = [52, 52, 1].length) ∧
     (remapWeeks [52, 52, 1] = ([52, 52, 1].set 0 0).map (· + 1) ∧
      (remapWeeks [52, 52, 1]).head? = some 1 ∧
      ((save_data_to_db 2022 "flu" [52, 52, 1] [(-3 : Int), 7, 9]).map
          (fun r => r.2.1)).head? = some 1)) :=
  ⟨by decide, by decide,
    claim_C6_week52_remap 2022 "flu" [52, 52, 1] [(-3 : Int), 7, 9]
      (by decide) (by decide)⟩

/-- C9: when the first bucket equals week 52, the `+= 1` increment is
applied to the whole column, so every later bucket stores its ISO week
number plus one (and the column keeps its length); when the first bucket is
not 52, no bucket is shifted at all. -/
theorem claim_C9_shift_all (weeks : List Nat) :
    (weeks.head? = some 52 →
      (remapWeeks weeks).length = weeks.length ∧
      ∀ i, 0 < i → (remapWeeks weeks)[i]? = weeks[i]?.map (· + 1)) ∧
    (weeks.head? ≠ some 52 → remapWeeks weeks = weeks) := by
  constructor
  · intro h52
    rw [remapWeeks, if_pos h52]
    constructor
    · simp
    · intro i hi
      rw [List.getElem?_map, List.getElem?_set_ne (by omega)]
  · intro hne
    rw [remapWeeks, if_neg hne]

theorem claim_C9_shift_all_witness :
    (([52, 3, 7] : List Nat).head? = some 52 ∧
     (remapWeeks [52, 3, 7]).length = ([52, 3, 7] : List Nat).length ∧
     (remapWeeks [52, 3, 7])[1]? = (([52, 3, 7] : List Nat)[1]?).map (· + 1)) ∧
    (¬ (([3, 5] : List Nat).head? = some 52) ∧ remapWeeks [3, 5] = [3, 5]) :=
  ⟨⟨by decide, ((claim_C9_shift_all [52, 3, 7]).1 (by decide)).1,
     ((claim_C9_shift_all [52, 3, 7]).1 (by decide)).2 1 (by decide)⟩,
   ⟨by decide, (claim_C9_shift_all [3, 5]).2 (by decide)⟩⟩

/-- C10: for every sequence and every positive chunk size `n`, the chunks
concatenate back to the sequence, every chunk is non-empty of length at most
`n`, and every chunk except possibly the last has length exactly `n`. -/
theorem claim_C10_chunks {α : Type} (s : List α) (n : Nat) (hn : 0 < n) :
    (chunks s n).flatten = s ∧
    (∀ c ∈ chunks s n, c ≠ [] ∧ c.length ≤ n) ∧
    (∀ c ∈ (chunks s n).dropLast, c.length = n) :=
  ⟨chunks_flatten s n hn,
   fun c hc => chunks_mem_length s n hn c hc,
   fun c hc => chunks_dropLast_length s n hn c hc⟩

theorem claim_C10_chunks_witness :
    (0 < 2) ∧
    ((chunks [10, 20, 30, 40, 50] 2).flatten = [10, 20, 30, 40, 50] ∧
     (∀ c ∈ chunks [10, 20, 30, 40, 50] 2, c ≠ [] ∧ c.length ≤ 2) ∧
     (∀ c ∈ (chunks [10, 20, 30, 40, 50] 2).dropLast, c.length = 2)) :=
  ⟨by decide, claim_C10_chunks [10, 20, 30, 40, 50] 2 (by decide)⟩

/-! ## Persistence layer error handling (postgres.py)

Every `DB` method wraps its cursor work in
`try: ... except (Exception, psycopg2.Error) as error: print(...)`.
We model a method by a function of the table state, the method's arguments
and a boolean `fail` saying whether the underlying psycopg2 call raises.
Each embedding returns the caller-visible value exactly as the Python
method does, together with the new table state and the log lines printed.

- `insert_values_into_influenza_stat_table` (lines 282-292) returns `None`
  on both paths; a failure only prints and leaves the table unchanged.
- `get_max_week_number` (lines 294-305) returns the string `"error"` when
  the cursor work raises, otherwise `MAX(week_number)` (SQL `NULL` → `None`
  when the table has no row for the year).
- `get_last_req_info` (lines 350-364) returns `(None, None)` when the
  cursor work raises, and also when the table is empty (`fetchone()` gives
  `None` and unpacking it raises `TypeError`, caught by the same handler). -/

structure InfRow where
  year : Int
  week_number : Int
  cases_number : Option ℚ
deriving DecidableEq, Repr

/-- The value `get_max_week_number` hands back: the Python method returns
either the string `"error"` or an optional integer. -/
inductive MaxWeekResult where
  | dbError
  | value (max : Option Int)
deriving DecidableEq, Repr

def insert_values_into_influenza_stat_table (table : List InfRow)
    (data : List InfRow) (fail : Bool) : List InfRow × List String × Unit :=
  if fail then (table, ["PostgreSQL error"], ())
  else (table ++ data, [], ())

def get_max_week_number (table : List InfRow) (year : Int) (fail : Bool) :
    MaxWeekResult × List String :=
  if fail then (.dbError, ["PostgreSQL error"])
  else (.value (((table.filter (fun r => r.year == year)).map
          (fun r => r.week_number)).max?), [])

structure ReqRow where
  id : Nat
  request_date : Nat
  phrases_number : Nat
deriving DecidableEq, Repr

/-- `SELECT request_date, phrases_number ... ORDER BY request_date DESC
LIMIT 1`: the row with the largest `request_date`. -/
def latestReqRow (table : List ReqRow) : Option ReqRow :=
  table.argmax (fun r => r.request_date)

def get_last_req_info (table : List ReqRow) (fail : Bool) :
    (Option Nat × Option Nat) × List String :=
  if fail then ((none, none), ["PostgreSQL error"])
  else
    match latestReqRow table with
    | none => ((none, none), ["PostgreSQL error"])
    | some r => ((some r.request_date, some r.phrases_number), [])

/-- C4 counterexample: storage failures in `insert_values_into_influenza_stat_table`
and `get_last_req_info` are not reported to the caller as a distinguishable
error result — at a concrete input the caller-visible return value on
failure equals the one on success (resp. on a successful read of an empty
table). -/
theorem claim_C4_counterexample :
    (insert_values_into_influenza_stat_table []
        [⟨2022, 11, some 5⟩] true).2.2 =
      (insert_values_into_influenza_stat_table []
        [⟨2022, 11, some 5⟩] false).2.2 ∧
    (get_last_req_info [] true).1 = (get_last_req_info [] false).1 := by
  constructor
  · rfl
  · rfl

/-- C4 amended: every storage failure is caught inside the `DB` method and
logged; only `get_max_week_number` surfaces it distinguishably (the sentinel
`"error"`), while `insert_values_into_influenza_stat_table` and
`get_last_req_info` return exactly the value of a success path, so those
callers cannot tell a storage failure apart. -/
theorem claim_C4_amended (table : List InfRow) (year : Int)
    (data : List InfRow) (reqs : List ReqRow) :
    ((get_max_week_number table year true).1 = .dbError ∧
     (get_max_week_number table year false).1 ≠ .dbError) ∧
    ((insert_values_into_influenza_stat_table table data true).2.1 ≠ [] ∧
     (get_last_req_info reqs true).2 ≠ []) ∧
    ((insert_values_into_influenza_stat_table table data true).2.2 =
       (insert_values_into_influenza_stat_table table data false).2.2) ∧
    (get_last_req_info reqs true).1 = (get_last_req_info [] false).1 := by
  refine ⟨⟨rfl, ?_⟩, ⟨?_, ?_⟩, rfl, rfl⟩
  · simp [get_max_week_number]
  · simp [insert_values_into_influenza_stat_table]
  · simp [get_last_req_info]


/-! ## Influenza bulletin sync cycle (influenza_stat_parser.py, lines 20-38)

```
last_week_number = db.get_max_week_number(self.year)
if last_week_number == "error": return None
week_numbers = self.get_week_numbers()
data = []
if not last_week_number:
    data = self.get_statistics_data_multithread(week_numbers)
else:
    week_numbers = [w for w in week_numbers if int(w) > last_week_number]
    if week_numbers:
        data = self.get_statistics_data_multithread(week_numbers)
if data:
    self.write_data_into_db(data)
```
`get_statistics_data_multithread(ws)` returns one `(year, w, cases)` tuple
per listed week, where `cases` is the scraped value (`None` on a parse
miss, so a parse miss still yields a row); the provider's per-week
behaviour is passed in as `casesOf`.  `if not last_week_number` is also
taken when the stored maximum equals `0` (Python falsiness).  Fetching the
empty filtered list and skipping the fetch produce the same empty `data`,
so the `if week_numbers:` guard needs no separate case. -/

structure InfluenzaCycle where
  fetched : List Nat
  inserted : List InfRow
deriving DecidableEq, Repr

def update_statistics_data (year : Int) (cursor : MaxWeekResult)
    (providerWeeks : List Nat) (casesOf : Nat → Option ℚ) : InfluenzaCycle :=
  match cursor with
  | .dbError => ⟨[], []⟩
  | .value last =>
    let wks : List Nat :=
      match last with
      | none => providerWeeks
      | some w =>
        if w = 0 then providerWeeks
        else providerWeeks.filter (fun (x : Nat) => decide (w < (x : Int)))
    ⟨wks, wks.map (fun (x : Nat) => InfRow.mk year (x : Int) (casesOf x))⟩

theorem update_statistics_data_some (year w : Int) (providerWeeks : List Nat)
    (casesOf : Nat → Option ℚ) :
    update_statistics_data year (.value (some w)) providerWeeks casesOf =
      ⟨(if w = 0 then providerWeeks
        else providerWeeks.filter (fun (x : Nat) => decide (w < (x : Int)))),
       (if w = 0 then providerWeeks
        else providerWeeks.filter (fun (x : Nat) => decide (w < (x : Int)))).map
         (fun (x : Nat) => InfRow.mk year (x : Int) (casesOf x))⟩ := rfl

/-- C5: with a stored cursor `w`, exactly the provider weeks strictly
greater than `w` are fetched, and the inserted batch has one row per
fetched week; with no stored data for the year, every listed week is
fetched.  Distinct provider weeks give one inserted row per week. -/
theorem claim_C5_incremental_fetch (year w : Int)
    (providerWeeks : List Nat) (casesOf : Nat → Option ℚ)
    (hpos : ∀ x ∈ providerWeeks, 1 ≤ x) :
    ((update_statistics_data year (.value (some w)) providerWeeks
        casesOf).fetched =
      providerWeeks.filter (fun (x : Nat) => decide (w < (x : Int)))) ∧
    ((update_statistics_data year (.value none) providerWeeks
        casesOf).fetched = providerWeeks) ∧
    (∀ cursor, (update_statistics_data year cursor providerWeeks
        casesOf).inserted =
      ((update_statistics_data year cursor providerWeeks
          casesOf).fetched).map
        (fun (x : Nat) => InfRow.mk year (x : Int) (casesOf x))) ∧
    (providerWeeks.Nodup →
      ((update_statistics_data year (.value (some w)) providerWeeks
          casesOf).inserted.map (fun r => r.week_number)).Nodup) := by
  refine ⟨?_, rfl, ?_, ?_⟩
  · rw [update_statistics_data_some]
    by_cases hw : w = 0
    · subst hw
      simp only [if_pos rfl]
      symm
      apply List.filter_eq_self.mpr
      intro x hx
      have := hpos x hx
      simp
      omega
    · simp only [if_neg hw]
  · intro cursor
    cases cursor with
    | dbError => rfl
    | value last =>
      cases last with
      | none => rfl
      | some w' => rfl
  · intro hnd
    rw [update_statistics_data_some]
    by_cases hw : w = 0
    · simp only [if_pos hw, List.map_map]
      refine List.Nodup.map ?_ hnd
      intro a b h
      simpa using h
    · simp only [if_neg hw, List.map_map]
      refine List.Nodup.map ?_ (hnd.filter _)
      intro a b h
      simpa using h

/-- The spec scenario: cursor week 10 in 2022, provider lists weeks 1-12,
so exactly weeks 11 and 12 are fetched and two rows are inserted. -/
theorem claim_C5_incremental_fetch_witness :
    (∀ x ∈ [1, 2, 3, 4, 5, 6, 7, 8, 9, 10, 11, 12], 1 ≤ x) ∧
    ((update_statistics_data 2022 (.value (some 10))
        [1, 2, 3, 4, 5, 6, 7, 8, 9, 10, 11, 12]
        (fun _ => none)).fetched =
      [1, 2, 3, 4, 5, 6, 7, 8, 9, 10, 11, 12].filter
        (fun (x : Nat) => decide ((10 : Int) < (x : Int)))) ∧
    ((update_statistics_data 2022 (.value none)
        [1, 2, 3, 4, 5, 6, 7, 8, 9, 10, 11, 12]
        (fun _ => none)).fetched = [1, 2, 3, 4, 5, 6, 7, 8, 9, 10, 11, 12]) :=
  ⟨by decide,
   (claim_C5_incremental_fetch 2022 10 _ (fun _ => none) (by decide)).1,
   (claim_C5_incremental_fetch 2022 10 _ (fun _ => none) (by decide)).2.1⟩

/-! ## WordStat quota gate (yandex_wordstat_api.py, lines 22-61)

```
phrases_number = 0
limit = 1000
last_req_date, last_req_phrases_number = db.get_last_req_info()
if last_req_date:
    last_req_date = datetime.fromisoformat(last_req_date)
    passed_time = datetime.now() - last_req_date
    if passed_time < timedelta(days=1):
        if last_req_phrases_number is not None:
            limit = 1000 - last_req_phrases_number
            if limit < 1:
                return None
            phrases_number += last_req_phrases_number
        else:
            return None
...
phrases = db.get_new_yandex_word_stat_phrases(year, month, limit)
self.get_phrase_statistics(phrases)
req_date = datetime.now()
phrases_number += len(phrases)
db.insert_values_in_last_ya_word_stat_req_table(req_date, phrases_number)
db.delete_old_rows_in_last_ya_word_stat_req_table()
```
Timestamps are modelled as integer seconds, so `timedelta(days=1)` is
86400; the two `datetime.now()` calls are identified as `now`.
`get_new_yandex_word_stat_phrases` (postgres.py, lines 204-227) runs a
`SELECT ... LIMIT {limit}`; `candidates` stands for the rows the SELECT
would return without the LIMIT clause, in result order, so the method
returns the first `limit` of them.

The `request_date` column is declared `TIMESTAMP`, and psycopg2 returns a
TIMESTAMP value as a `datetime.datetime` object, never as a string, so the
`last_req_date` that `get_last_req_info` hands back is a `datetime` (or
`None`).  `datetime.fromisoformat` accepts only `str` and raises
`TypeError: fromisoformat: argument must be str` on a `datetime`; the call
sits outside the `with DB(...)` block (whose `__exit__` swallows
exceptions) and outside any try/except, so the exception propagates out of
`update_phrase_statistics`.  The model therefore distinguishes the runtime
type of the date value and returns `Except`: `.error` is the uncaught
TypeError. -/

/-- The runtime type of a Python value carrying time `t`: the
`datetime.datetime` object psycopg2 produces for a TIMESTAMP column, or an
ISO-format string.  Both are truthy in `if last_req_date:`. -/
inductive PyTimeValue where
  | pyDatetime (t : Nat)
  | pyString (t : Nat)
deriving DecidableEq, Repr

/-- `datetime.fromisoformat`: parses a string, raises `TypeError` on any
other argument type. -/
def datetime_fromisoformat : PyTimeValue → Except String Nat
  | .pyString t => .ok t
  | .pyDatetime _ => .error "TypeError: fromisoformat: argument must be str"

def get_new_yandex_word_stat_phrases (candidates : List String)
    (limit : Int) : List String :=
  candidates.take limit.toNat

/-- The observable outcome of one `update_phrase_statistics` cycle that
returns normally: `fetched = none` means the method returned before
fetching (no adapter calls at all); otherwise `fetched` is the phrase list
handed to `get_phrase_statistics`, and `written` the `(request_date,
phrases_number)` row inserted at the end. -/
structure WordstatCycle where
  fetched : Option (List String)
  written : Option (Nat × Nat)
deriving DecidableEq, Repr

def update_phrase_statistics (now : Nat) (lastReqDate : Option PyTimeValue)
    (lastReqPhrasesNumber : Option Nat) (candidates : List String) :
    Except String WordstatCycle :=
  let run : Int → Nat → WordstatCycle := fun limit prev =>
    let phrases := get_new_yandex_word_stat_phrases candidates limit
    ⟨some phrases, some (now, prev + phrases.length)⟩
  match lastReqDate with
  | some dval =>
    match datetime_fromisoformat dval with
    | .error e => .error e
    | .ok d =>
      if now - d < 86400 then
        match lastReqPhrasesNumber with
        | some c =>
          if (1000 - (c : Int)) < 1 then .ok ⟨none, none⟩
          else .ok (run (1000 - (c : Int)) c)
        | none => .ok ⟨none, none⟩
      else .ok (run 1000 0)
  | none => .ok (run 1000 0)

/-- C1 (code bug): whenever a last-request row is stored — in particular in
the claim's in-window scenario — `get_last_req_info` returns the
`request_date` TIMESTAMP as a `datetime` object and
`datetime.fromisoformat` raises an uncaught TypeError before the quota is
even read, so neither the clean skip (`1000 - c < 1`) nor the capped fetch
the claim describes can happen.  First conjunct: the crash for every stored
row, consumed count and candidate list.  Second conjunct: the concrete
failing input (a request 1 hour ago with `phrases_consumed = 950` and 100
candidates).  Third conjunct: had the date come back as the string the code
expects, the very same cycle would gate exactly as the claim says (first 50
candidates fetched, `(now, 1000)` written) — the quota logic downstream of
the slip matches the spec, isolating the bug to the type mismatch. -/
theorem claim_C1_quota_gate_crash :
    (∀ (now d : Nat) (c : Option Nat) (candidates : List String),
      update_phrase_statistics now (some (PyTimeValue.pyDatetime d)) c
          candidates =
        .error "TypeError: fromisoformat: argument must be str") ∧
    (update_phrase_statistics 1662033600
        (some (PyTimeValue.pyDatetime 1662030000)) (some 950)
        (List.replicate 100 "p") =
      .error "TypeError: fromisoformat: argument must be str") ∧
    (update_phrase_statistics 1662033600
        (some (PyTimeValue.pyString 1662030000)) (some 950)
        (List.replicate 100 "p") =
      .ok ⟨some (List.replicate 50 "p"), some (1662033600, 1000)⟩) :=
  ⟨fun _ _ _ _ => rfl, rfl, rfl⟩

/-! ## Bounded retry and polling loops (C7)

Trends query retry (google_trends_api.py, lines 75-97):
```
timer = 0
timestep = 20
timeout = 100
while timer < timeout:
    try:
        ... phrase_stat_df = pytrend.interest_over_time()
        if not phrase_stat_df.empty: return phrase_stat_df
        else: print(...); return phrase_stat_df
    except ResponseError as e:
        print("Error: " + str(e))
    time.sleep(timestep)
    timer += timestep
return phrase_stat_df      # still the initial empty dataframe
```
WordStat report polling (yandex_wordstat_api.py, lines 75-86):
```
timer = 0
timestep = 20
timeout = 100
ready = False
while timer < timeout:
    time.sleep(timestep)
    timer += timestep
    ready = self._report_ready(report_id)
    if ready:
        break
```
Each loop body makes one provider call; the provider's answer to the k-th
call (k = 0, 1, ...) is supplied as a function of k.  `timer / 20` is the
number of calls already made when the loop body with that `timer` value
starts, so it indexes the current call. -/

inductive TrendsAttempt where
  | ok (df : List (Nat × Int))
  | responseError
deriving DecidableEq, Repr

/-- The retry loop of `_get_phrase_statistics_df`: returns the dataframe the
Python function returns (empty when every attempt errored) and the number of
provider queries made. -/
def get_phrase_statistics_df (attempt : Nat → TrendsAttempt) (timer : Nat) :
    List (Nat × Int) × Nat :=
  if h : timer < 100 then
    match attempt (timer / 20) with
    | .ok df => (df, timer / 20 + 1)
    | .responseError => get_phrase_statistics_df attempt (timer + 20)
  else ([], timer / 20)
termination_by 100 - timer
decreasing_by omega

/-- The polling loop of `get_phrase_statistics`: returns the final `ready`
flag and the number of status checks made.  In the source the sleep comes
before the status query; only the sequence of query results matters here. -/
def pollReport (ready : Nat → Bool) (timer : Nat) : Bool × Nat :=
  if h : timer < 100 then
    if ready (timer / 20) then (true, timer / 20 + 1)
    else pollReport ready (timer + 20)
  else (false, timer / 20)
termination_by 100 - timer
decreasing_by omega

theorem get_phrase_statistics_df_step (attempt : Nat → TrendsAttempt)
    (k : Nat) :
    get_phrase_statistics_df attempt (20 * k) =
      if k < 5 then
        match attempt k with
        | .ok df => (df, k + 1)
        | .responseError => get_phrase_statistics_df attempt (20 * (k + 1))
      else ([], k) := by
  have h1 : 20 * k / 20 = k := by omega
  by_cases hk : k < 5
  · have ht : 20 * k < 100 := by omega
    rw [get_phrase_statistics_df, dif_pos ht, if_pos hk, h1]
    have h2 : 20 * k + 20 = 20 * (k + 1) := by ring
    rw [h2]
  · have ht : ¬ (20 * k < 100) := by omega
    rw [get_phrase_statistics_df, dif_neg ht, if_neg hk, h1]

theorem pollReport_step (ready : Nat → Bool) (k : Nat) :
    pollReport ready (20 * k) =
      if k < 5 then
        if ready k then (true, k + 1) else pollReport ready (20 * (k + 1))
      else (false, k) := by
  have h1 : 20 * k / 20 = k := by omega
  by_cases hk : k < 5
  · have ht : 20 * k < 100 := by omega
    rw [pollReport, dif_pos ht, if_pos hk, h1]
    have h2 : 20 * k + 20 = 20 * (k + 1) := by ring
    rw [h2]
  · have ht : ¬ (20 * k < 100) := by omega
    rw [pollReport, dif_neg ht, if_neg hk, h1]

theorem pollReport_props (ready : Nat → Bool) :
    ∀ m k, k + m = 5 →
      (pollReport ready (20 * k)).2 ≤ 5 ∧
      ((pollReport ready (20 * k)).1 = true ↔
        ∃ i, k ≤ i ∧ i < 5 ∧ ready i = true) := by
  intro m
  induction m with
  | zero =>
    intro k hk
    have h5 : k = 5 := by omega
    subst h5
    rw [pollReport_step]
    simp
    omega
  | succ m ih =>
    intro k hk
    have hklt : k < 5 := by omega
    rw [pollReport_step, if_pos hklt]
    by_cases hr : ready k
    · rw [if_pos hr]
      refine ⟨by simp; omega, ?_⟩
      simp
      exact ⟨k, le_refl k, hklt, hr⟩
    · rw [if_neg hr]
      obtain ⟨hle, hiff⟩ := ih (k + 1) (by omega)
      refine ⟨hle, hiff.trans ?_⟩
      constructor
      · rintro ⟨i, h1, h2, h3⟩
        exact ⟨i, by omega, h2, h3⟩
      · rintro ⟨i, h1, h2, h3⟩
        refine ⟨i, ?_, h2, h3⟩
        rcases Nat.eq_or_lt_of_le h1 with heq | hlt
        · subst heq
          rw [h3] at hr
          exact absurd rfl hr
        · omega

theorem pollReport_first (ready : Nat → Bool) :
    ∀ m k j, k + m = 5 → k ≤ j → j < 5 →
      (∀ i, k ≤ i → i < j → ready i = false) → ready j = true →
      pollReport ready (20 * k) = (true, j + 1) := by
  intro m
  induction m with
  | zero =>
    intro k j hk hkj hj _ _
    omega
  | succ m ih =>
    intro k j hk hkj hj hbefore hj_ready
    have hklt : k < 5 := by omega
    rw [pollReport_step, if_pos hklt]
    rcases Nat.eq_or_lt_of_le hkj with heq | hlt
    · subst heq
      rw [if_pos hj_ready]
    · have hrk : ready k = false := hbefore k (le_refl k) hlt
      rw [if_neg (by simp [hrk])]
      exact ih (k + 1) j (by omega) (by omega) hj
        (fun i h1 h2 => hbefore i (by omega) h2) hj_ready

theorem get_phrase_statistics_df_props (attempt : Nat → TrendsAttempt) :
    ∀ m k, k + m = 5 →
      (get_phrase_statistics_df attempt (20 * k)).2 ≤ 5 ∧
      ((∀ i, k ≤ i → i < 5 → attempt i = .responseError) →
        get_phrase_statistics_df attempt (20 * k) = ([], 5)) := by
  intro m
  induction m with
  | zero =>
    intro k hk
    have h5 : k = 5 := by omega
    subst h5
    rw [get_phrase_statistics_df_step]
    simp
  | succ m ih =>
    intro k hk
    have hklt : k < 5 := by omega
    rw [get_phrase_statistics_df_step, if_pos hklt]
    obtain ⟨hle, hall⟩ := ih (k + 1) (by omega)
    cases hak : attempt k with
    | ok df =>
      refine ⟨by simp; omega, ?_⟩
      intro herr
      have := herr k (le_refl k) hklt
      rw [hak] at this
      exact absurd this (by simp)
    | responseError =>
      refine ⟨hle, ?_⟩
      intro herr
      exact hall (fun i h1 h2 => herr i (by omega) h2)

theorem get_phrase_statistics_df_first (attempt : Nat → TrendsAttempt) :
    ∀ m k j df, k + m = 5 → k ≤ j → j < 5 →
      (∀ i, k ≤ i → i < j → attempt i = .responseError) →
      attempt j = .ok df →
      get_phrase_statistics_df attempt (20 * k) = (df, j + 1) := by
  intro m
  induction m with
  | zero =>
    intro k j df hk hkj hj _ _
    omega
  | succ m ih =>
    intro k j df hk hkj hj hbefore hj_ok
    have hklt : k < 5 := by omega
    rw [get_phrase_statistics_df_step, if_pos hklt]
    rcases Nat.eq_or_lt_of_le hkj with heq | hlt
    · subst heq
      rw [hj_ok]
    · have hrk : attempt k = .responseError := hbefore k (le_refl k) hlt
      rw [hrk]
      exact ih (k + 1) j df (by omega) (by omega) hj
        (fun i h1 h2 => hbefore i (by omega) h2) hj_ok

/-- C7: both loops are bounded.  The Trends retry loop makes at most 5
provider queries, returns the first successful dataframe as soon as it
arrives, and gives up with the empty dataframe (no data) after 5 errors;
the WordStat polling loop makes at most 5 status checks, reports ready iff
one of the first 5 checks says "Done", and stops at the first such check. -/
theorem claim_C7_bounded_loops (attempt : Nat → TrendsAttempt)
    (ready : Nat → Bool) :
    ((get_phrase_statistics_df attempt 0).2 ≤ 5) ∧
    ((∀ i, i < 5 → attempt i = .responseError) →
      get_phrase_statistics_df attempt 0 = ([], 5)) ∧
    (∀ j df, j < 5 → (∀ i, i < j → attempt i = .responseError) →
      attempt j = .ok df → get_phrase_statistics_df attempt 0 = (df, j + 1)) ∧
    ((pollReport ready 0).2 ≤ 5) ∧
    ((pollReport ready 0).1 = true ↔ ∃ i, i < 5 ∧ ready i = true) ∧
    (∀ j, j < 5 → (∀ i, i < j → ready i = false) → ready j = true →
      pollReport ready 0 = (true, j + 1)) := by
  have e0 : (0 : Nat) = 20 * 0 := rfl
  refine ⟨?_, ?_, ?_, ?_, ?_, ?_⟩
  · rw [e0]
    exact (get_phrase_statistics_df_props attempt 5 0 rfl).1
  · intro h
    rw [e0]
    exact (get_phrase_statistics_df_props attempt 5 0 rfl).2
      (fun i _ h2 => h i h2)
  · intro j df hj hbefore hok
    rw [e0]
    exact get_phrase_statistics_df_first attempt 5 0 j df rfl (Nat.zero_le j)
      hj (fun i _ h2 => hbefore i h2) hok
  · rw [e0]
    exact (pollReport_props ready 5 0 rfl).1
  · rw [e0]
    refine ((pollReport_props ready 5 0 rfl).2).trans ?_
    constructor
    · rintro ⟨i, _, h2, h3⟩
      exact ⟨i, h2, h3⟩
    · rintro ⟨i, h2, h3⟩
      exact ⟨i, Nat.zero_le i, h2, h3⟩
  · intro j hj hbefore hready
    rw [e0]
    exact pollReport_first ready 5 0 j rfl (Nat.zero_le j) hj
      (fun i _ h2 => hbefore i h2) hready

/-- Concrete runs: five straight errors exhaust the Trends budget with 5
attempts and no data; a report becoming ready at the fourth check (index 3)
stops the polling loop there. -/
theorem claim_C7_bounded_loops_witness :
    ((∀ i, i < 5 →
        (fun _ => TrendsAttempt.responseError) i = .responseError) ∧
     get_phrase_statistics_df (fun _ => TrendsAttempt.responseError) 0 =
       ([], 5)) ∧
    ((3 < 5) ∧ (∀ i, i < 3 → (fun j => j == 3) i = false) ∧
     pollReport (fun j => j == 3) 0 = (true, 4)) :=
  ⟨⟨fun _ _ => rfl,
    (claim_C7_bounded_loops (fun _ => TrendsAttempt.responseError)
        (fun _ => false)).2.1 (fun _ _ => rfl)⟩,
   ⟨by omega, by decide,
    (claim_C7_bounded_loops (fun _ => TrendsAttempt.responseError)
        (fun j => j == 3)).2.2.2.2.2 3 (by omega) (by decide) (by decide)⟩⟩

theorem pollReport_all_false (ready : Nat → Bool) :
    ∀ m k, k + m = 5 → (∀ i, k ≤ i → i < 5 → ready i = false) →
      pollReport ready (20 * k) = (false, 5) := by
  intro m
  induction m with
  | zero =>
    intro k hk _
    have h5 : k = 5 := by omega
    subst h5
    rw [pollReport_step]
    simp
  | succ m ih =>
    intro k hk hall
    have hklt : k < 5 := by omega
    rw [pollReport_step, if_pos hklt,
      if_neg (by simp [hall k (le_refl k) hklt])]
    exact ih (k + 1) (by omega) (fun i h1 h2 => hall i (by omega) h2)

/-! ## WordStat report pipeline per chunk (yandex_wordstat_api.py, 63-97)

```
for ten_phrases in chunks(phrases, 10):
    report_id = self.request_report(ten_phrases, geo_id)
    if not report_id:
        return None
    ... polling loop (pollReport above) ...
    if not ready:
        return None
    report = self.get_report(report_id)
    if not report:
        return None
    self.add_phrase_statistics_to_db(report)
    self.delete_report(report_id)
# Delete duplicates from yandex_word_stat table
... db.delete_duplicates_from_yandex_word_stat_table()
```
The provider's behaviour for the k-th submitted report is a `ChunkOutcome`:
the report id `request_report` returns (`none` on a network error; Python
also treats a `0` id as falsy), the status-check answers driving the
polling loop, and the payload `get_report` returns (`none` on a network
error; Python also treats an empty payload as falsy).
`add_phrase_statistics_to_db` (lines 160-175) stamps every report entry
with the year and month of the previous calendar month, passed here as
`ym`; its rows are appended to the `yandex_word_stat` table, so `committed`
collects them in order.  `requested` counts `request_report` calls and
`dedupRan` records whether the trailing de-duplication was reached. -/

structure ReportEntry where
  phrase : String
  shows : Int
deriving DecidableEq, Repr

structure ChunkOutcome where
  reportId : Option Nat
  readyAt : Nat → Bool
  report : Option (List ReportEntry)

/-- Python `if not report_id`. -/
def reportIdFalsy : Option Nat → Bool
  | none => true
  | some n => n == 0

/-- Python `if not report`. -/
def reportFalsy : Option (List ReportEntry) → Bool
  | none => true
  | some l => l.isEmpty

/-- The `(year, month, phrase, shows)` rows one report contributes. -/
def add_phrase_statistics_to_db (ym : Nat × Nat) (report : List ReportEntry) :
    List (Nat × Nat × String × Int) :=
  report.map (fun e => (ym.1, ym.2, e.phrase, e.shows))

structure WordstatRun where
  committed : List (Nat × Nat × String × Int)
  requested : Nat
  dedupRan : Bool
deriving DecidableEq, Repr

/-- The `for ten_phrases in chunks(phrases, 10)` loop; `k` indexes the
submitted reports, `acc` the rows committed so far. -/
def processChunks (env : Nat → ChunkOutcome) (ym : Nat × Nat) :
    List (List String) → Nat → List (Nat × Nat × String × Int) → WordstatRun
  | [], k, acc => ⟨acc, k, true⟩
  | _ :: rest, k, acc =>
    let o := env k
    if reportIdFalsy o.reportId then ⟨acc, k + 1, false⟩
    else if !(pollReport o.readyAt 0).1 then ⟨acc, k + 1, false⟩
    else if reportFalsy o.report then ⟨acc, k + 1, false⟩
    else processChunks env ym rest (k + 1)
        (acc ++ add_phrase_statistics_to_db ym (o.report.getD []))

def get_phrase_statistics (env : Nat → ChunkOutcome) (ym : Nat × Nat)
    (phrases : List String) : WordstatRun :=
  processChunks env ym (chunks phrases 10) 0 []

/-- A chunk's report pipeline reaches `Ready`/`Fetched`: the request
returned a usable id, polling saw "Done" within the budget, and the payload
was retrieved and non-empty. -/
def chunkSucceeds (o : ChunkOutcome) : Bool :=
  !(reportIdFalsy o.reportId) && (pollReport o.readyAt 0).1 &&
    !(reportFalsy o.report)

def chunkRows (ym : Nat × Nat) (o : ChunkOutcome) :
    List (Nat × Nat × String × Int) :=
  add_phrase_statistics_to_db ym (o.report.getD [])

theorem flatten_range_shift {β : Type} (f : Nat → List β) (n k0 : Nat) :
    f k0 ++ ((List.range n).map (fun i => f (k0 + 1 + i))).flatten =
      ((List.range (n + 1)).map (fun i => f (k0 + i))).flatten := by
  rw [List.range_succ_eq_map]
  simp only [List.map_cons, List.flatten_cons, Nat.add_zero, List.map_map]
  congr 1
  apply congrArg
  apply List.map_congr_left
  intro i _
  simp only [Function.comp_apply]
  congr 1
  omega

theorem processChunks_all (env : Nat → ChunkOutcome) (ym : Nat × Nat) :
    ∀ cs k0 acc,
      (∀ k, k0 ≤ k → k < k0 + cs.length → chunkSucceeds (env k) = true) →
      processChunks env ym cs k0 acc =
        ⟨acc ++ ((List.range cs.length).map
            (fun i => chunkRows ym (env (k0 + i)))).flatten,
         k0 + cs.length, true⟩ := by
  intro cs
  induction cs with
  | nil =>
    intro k0 acc _
    simp [processChunks]
  | cons c rest ih =>
    intro k0 acc hall
    have hs := hall k0 (le_refl k0) (by simp)
    simp only [chunkSucceeds, Bool.and_eq_true, Bool.not_eq_true'] at hs
    obtain ⟨⟨h1, h2⟩, h3⟩ := hs
    simp only [processChunks, h1, h2, h3, Bool.not_true, if_false,
      Bool.false_eq_true, reduceIte]
    rw [ih (k0 + 1) _ (fun k hk1 hk2 => hall k (by omega) (by simp at hk2 ⊢; omega))]
    have hshift := flatten_range_shift (fun j => chunkRows ym (env j))
      rest.length k0
    simp only [List.length_cons, WordstatRun.mk.injEq]
    refine ⟨?_, by omega, trivial⟩
    rw [List.append_assoc]
    exact congrArg (fun l => acc ++ l) hshift

theorem processChunks_fail (env : Nat → ChunkOutcome) (ym : Nat × Nat) :
    ∀ cs k0 acc k,
      k0 ≤ k → k < k0 + cs.length →
      (∀ j, k0 ≤ j → j < k → chunkSucceeds (env j) = true) →
      chunkSucceeds (env k) = false →
      processChunks env ym cs k0 acc =
        ⟨acc ++ ((List.range (k - k0)).map
            (fun i => chunkRows ym (env (k0 + i)))).flatten,
         k + 1, false⟩ := by
  intro cs
  induction cs with
  | nil =>
    intro k0 acc k h1 h2 _ _
    simp at h2
    omega
  | cons c rest ih =>
    intro k0 acc k hk0 hk1 hbefore hfail
    rcases Nat.eq_or_lt_of_le hk0 with heq | hlt
    · have hk : k = k0 := heq.symm
      subst hk
      simp only [Nat.sub_self, List.range_zero, List.map_nil,
        List.flatten_nil, List.append_nil]
      by_cases h1 : reportIdFalsy (env k).reportId
      · simp [processChunks, h1]
      · by_cases h2 : (pollReport (env k).readyAt 0).1
        · by_cases h3 : reportFalsy (env k).report
          · simp [processChunks, h1, h2, h3]
          · exfalso
            have hsucc : chunkSucceeds (env k) = true := by
              simp [chunkSucceeds, h1, h2, h3]
            rw [hsucc] at hfail
            exact absurd hfail (by simp)
        · simp [processChunks, h1, h2]
    · have hs := hbefore k0 (le_refl k0) hlt
      simp only [chunkSucceeds, Bool.and_eq_true, Bool.not_eq_true'] at hs
      obtain ⟨⟨h1, h2⟩, h3⟩ := hs
      simp only [processChunks, h1, h2, h3, Bool.not_true, if_false,
        Bool.false_eq_true, reduceIte]
      rw [ih (k0 + 1) _ k (by omega) (by simp at hk1 ⊢; omega)
        (fun j hj1 hj2 => hbefore j (by omega) hj2) hfail]
      have hkk : k - k0 = (k - (k0 + 1)) + 1 := by omega
      rw [hkk]
      have hshift := flatten_range_shift (fun j => chunkRows ym (env j))
        (k - (k0 + 1)) k0
      simp only [WordstatRun.mk.injEq]
      refine ⟨?_, trivial, trivial⟩
      rw [List.append_assoc]
      exact congrArg (fun l => acc ++ l) hshift

/-- C2 (amended): the chunk loop commits exactly the reports fetched before
the first failing chunk.  When every chunk's report pipeline succeeds, all
chunk reports are committed and the trailing dedup runs; when chunk `k` is
the first to fail (report request refused, polling budget exhausted, or
empty/failed payload), `get_phrase_statistics` returns at chunk `k`: the
committed rows are those of chunks `0..k-1` only, chunk `k` is the last one
submitted (later chunks are never requested), and the dedup pass is
skipped. -/
theorem claim_C2_first_failure (env : Nat → ChunkOutcome) (ym : Nat × Nat)
    (phrases : List String) :
    ((∀ k, k < (chunks phrases 10).length → chunkSucceeds (env k) = true) →
      get_phrase_statistics env ym phrases =
        ⟨((List.range (chunks phrases 10).length).map
            (fun k => chunkRows ym (env k))).flatten,
         (chunks phrases 10).length, true⟩) ∧
    (∀ k, k < (chunks phrases 10).length →
      (∀ j, j < k → chunkSucceeds (env j) = true) →
      chunkSucceeds (env k) = false →
      get_phrase_statistics env ym phrases =
        ⟨((List.range k).map (fun j => chunkRows ym (env j))).flatten,
         k + 1, false⟩) := by
  constructor
  · intro hall
    rw [get_phrase_statistics,
      processChunks_all env ym (chunks phrases 10) 0 []
        (fun k _ hk => hall k (by omega))]
    simp
  · intro k hk hbefore hfail
    rw [get_phrase_statistics,
      processChunks_fail env ym (chunks phrases 10) 0 [] k (Nat.zero_le k)
        (by omega) (fun j _ hj => hbefore j hj) hfail]
    simp

/-! The spec scenario for C2: 25 phrases, hence 3 chunks of sizes 10, 10
and 5; the first chunk's report is fetched, the second chunk's report never
becomes ready within the polling budget, the third chunk's report would be
ready at once. -/

def cexPhrases : List String := List.replicate 25 "p"

def cexEnv : Nat → ChunkOutcome := fun k =>
  if k = 0 then ⟨some 1, fun _ => true, some [⟨"a", 1⟩]⟩
  else if k = 1 then ⟨some 2, fun _ => false, some [⟨"b", 2⟩]⟩
  else ⟨some 3, fun _ => true, some [⟨"c", 3⟩]⟩

theorem pollConstTrue : pollReport (fun _ => true) 0 = (true, 1) := by
  have h := pollReport_first (fun _ => true) 5 0 0 rfl (le_refl 0)
    (by omega) (fun i _ h2 => absurd h2 (by omega)) rfl
  simpa using h

theorem pollConstFalse : pollReport (fun _ => false) 0 = (false, 5) := by
  have h := pollReport_all_false (fun _ => false) 5 0 rfl (fun _ _ _ => rfl)
  simpa using h

theorem cex_chunks : chunks cexPhrases 10 =
    [List.replicate 10 "p", List.replicate 10 "p", List.replicate 5 "p"] := by
  rw [show cexPhrases = List.replicate 25 "p" from rfl]
  rw [chunks_cons _ 10 (by omega) (by simp)]
  simp only [List.take_replicate, List.drop_replicate]
  norm_num
  rw [chunks_cons _ 10 (by omega) (by simp)]
  simp only [List.take_replicate, List.drop_replicate]
  norm_num
  rw [chunks_cons _ 10 (by omega) (by simp)]
  simp only [List.take_replicate, List.drop_replicate]
  norm_num
  exact chunks_nil 10

theorem cex_succ0 : chunkSucceeds (cexEnv 0) = true := by
  simp [chunkSucceeds, cexEnv, reportIdFalsy, reportFalsy, pollConstTrue]

theorem cex_fail1 : chunkSucceeds (cexEnv 1) = false := by
  simp [chunkSucceeds, cexEnv, reportIdFalsy, reportFalsy, pollConstFalse]

theorem cex_succ2 : chunkSucceeds (cexEnv 2) = true := by
  simp [chunkSucceeds, cexEnv, reportIdFalsy, reportFalsy, pollConstTrue]

/-- C2 counterexample: with 3 chunks where chunk 0 succeeds, chunk 1
exhausts its polling budget and chunk 2 would reach `Ready`, the code does
NOT proceed past chunk 1: only 2 of the 3 reports are ever requested, only
chunk 0's rows are committed, and the committed rows differ from the union
of the entries of the chunks able to reach `Ready` (chunks 0 and 2), which
is what the claim asserts is committed. -/
theorem claim_C2_counterexample :
    (chunks cexPhrases 10).length = 3 ∧
    chunkSucceeds (cexEnv 0) = true ∧
    (pollReport (cexEnv 1).readyAt 0).1 = false ∧
    chunkSucceeds (cexEnv 2) = true ∧
    get_phrase_statistics cexEnv (2022, 9) cexPhrases =
      ⟨[(2022, 9, "a", 1)], 2, false⟩ ∧
    (get_phrase_statistics cexEnv (2022, 9) cexPhrases).committed ≠
      chunkRows (2022, 9) (cexEnv 0) ++ chunkRows (2022, 9) (cexEnv 2) := by
  have hlen : (chunks cexPhrases 10).length = 3 := by rw [cex_chunks]; rfl
  have hmain : get_phrase_statistics cexEnv (2022, 9) cexPhrases =
      ⟨[(2022, 9, "a", 1)], 2, false⟩ := by
    rw [get_phrase_statistics,
      processChunks_fail cexEnv (2022, 9) (chunks cexPhrases 10) 0 [] 1
        (by omega) (by omega)
        (fun j _ hj => by
          have hj0 : j = 0 := by omega
          rw [hj0]
          exact cex_succ0)
        cex_fail1]
    simp [chunkRows, add_phrase_statistics_to_db, cexEnv, List.range_succ]
  refine ⟨hlen, cex_succ0, ?_, cex_succ2, hmain, ?_⟩
  · have : (cexEnv 1).readyAt = fun _ => false := rfl
    rw [this, pollConstFalse]
  · rw [hmain]
    simp [chunkRows, add_phrase_statistics_to_db, cexEnv]

/-- The amended claim at the scenario input: chunk 1 is the first failure,
so exactly chunk 0's rows are committed and only 2 reports are requested. -/
theorem claim_C2_first_failure_witness :
    (1 < (chunks cexPhrases 10).length) ∧
    (∀ j, j < 1 → chunkSucceeds (cexEnv j) = true) ∧
    (chunkSucceeds (cexEnv 1) = false) ∧
    get_phrase_statistics cexEnv (2022, 9) cexPhrases =
      ⟨((List.range 1).map (fun j => chunkRows (2022, 9) (cexEnv j))).flatten,
       2, false⟩ :=
  ⟨by simp [cex_chunks],
   fun j hj => by
     have hj0 : j = 0 := by omega
     rw [hj0]
     exact cex_succ0,
   cex_fail1,
   (claim_C2_first_failure cexEnv (2022, 9) cexPhrases).2 1
     (by simp [cex_chunks])
     (fun j hj => by
       have hj0 : j = 0 := by omega
       rw [hj0]
       exact cex_succ0)
     cex_fail1⟩

/-! ## Month aggregation (google_trends_api.py, `get_google_trends_plot_by_month`,
lines 155-197)

```
weeks, shows_percents = db.get_google_trends_stat_plot_data(...)
if not (weeks and shows_percents): return None
months_shows = {}
for week_num, shows_percent in zip(weeks, shows_percents):
    if week_num == 0: continue
    date_string = f"{year}-W{week_num}-1"
    date_from_week = datetime.strptime(date_string, "%Y-W%W-%w")
    month = date_from_week.month
    if month not in months_shows: months_shows[month] = shows_percent
    else: months_shows[month] += shows_percent
if (start_month - 1) in months_shows:
    del months_shows[start_month - 1]
months = np.array(list(months_shows.keys()))
shows_percents = np.array(list(months_shows.values()))
shows_percents = np.around(shows_percents / np.amax(shows_percents) * 100).astype(int)
```
`rows` below is `zip(weeks, shows_percents)`, the `(week_number,
shows_percent)` pairs the database query returns; the stored values are
0-100 percentages, modelled as `Nat`.  The Python dict is modelled as an
association list in insertion order.  `np.around` rounds half to even;
`roundHalfEven (v * 100) M` renders `np.around(v / M * 100)` in exact
arithmetic.  (`np.amax` of an empty array raises, and with an all-zero
array the division yields NaN; the theorem therefore assumes some
surviving month with a value.) -/

/-- Proleptic Gregorian leap year, as `calendar.isleap` / `datetime`. -/
def isLeapYear (y : Nat) : Bool :=
  y % 4 == 0 && (y % 100 != 0 || y % 400 == 0)

def monthLengths (leap : Bool) : List Nat :=
  [31, if leap then 29 else 28, 31, 30, 31, 30, 31, 31, 30, 31, 30, 31]

def monthOfDayAux : List Nat → Nat → Nat → Nat
  | [], _, m => m
  | len :: rest, d, m => if d ≤ len then m else monthOfDayAux rest (d - len) (m + 1)

/-- The calendar month (1-12) containing day-of-year `d` (1-based) of year
`y`. -/
def monthOfYearDay (y d : Nat) : Nat :=
  monthOfDayAux (monthLengths (isLeapYear y)) d 1

/-- Days before January 1 of year `y` since the proleptic epoch
(0001-01-01, a Monday, is Python's ordinal 1). -/
def daysBeforeYear (y : Nat) : Nat :=
  365 * (y - 1) + (y - 1) / 4 - (y - 1) / 100 + (y - 1) / 400

/-- `date(y, 1, 1).weekday()`: Monday = 0. -/
def jan1Weekday (y : Nat) : Nat := daysBeforeYear y % 7

/-- Day-of-year of `datetime.strptime(f"{y}-W{w}-1", "%Y-W%W-%w")` for
`w ≥ 1`: day 1 plus the length of the partial week 0 (`(7 - jan1Weekday y)
% 7` days) plus `7 * (w - 1)`; this matches CPython's
`_calc_julian_from_U_or_W`. -/
def weekMondayDayOfYear (y w : Nat) : Nat :=
  1 + (7 - jan1Weekday y) % 7 + 7 * (w - 1)

/-- The month of the Monday of `%W`-week `w` of year `y`. -/
def monthOfWeekMonday (y w : Nat) : Nat :=
  monthOfYearDay y (weekMondayDayOfYear y w)

/-- One step of the Python dict accumulation
`months_shows[month] = / += shows_percent`, preserving insertion order. -/
def addToMonths (l : List (Nat × Nat)) (m v : Nat) : List (Nat × Nat) :=
  match l with
  | [] => [(m, v)]
  | (k, x) :: rest =>
    if k = m then (k, x + v) :: rest else (k, x) :: addToMonths rest m v

/-- The accumulation loop over the zipped rows, skipping week 0. -/
def buildMonths (year : Nat) (rows : List (Nat × Nat)) : List (Nat × Nat) :=
  rows.foldl
    (fun acc p =>
      if p.1 = 0 then acc
      else addToMonths acc (monthOfWeekMonday year p.1) p.2) []

/-- `del months_shows[start_month - 1]` (a no-op when the key is absent). -/
def removeMonth (l : List (Nat × Nat)) (m : Nat) : List (Nat × Nat) :=
  l.filter (fun p => p.1 != m)

/-- `np.amax` over the dict values (0 on an empty list, where numpy would
raise instead). -/
def maxValue (l : List (Nat × Nat)) : Nat := (l.map Prod.snd).foldr max 0

/-- Round-half-even of `num / den`, numpy's rounding mode. -/
def roundHalfEven (num den : Nat) : Nat :=
  let q := num / den
  let r := num % den
  if 2 * r < den then q
  else if den < 2 * r then q + 1
  else if q % 2 = 0 then q else q + 1

/-- The month/value pairs the plot is drawn from (the part of the function
before any matplotlib call); `none` when the query returned nothing. -/
def get_google_trends_plot_by_month (year start_month : Nat)
    (rows : List (Nat × Nat)) : Option (List (Nat × Nat)) :=
  if rows.isEmpty then none
  else
    let months_shows := removeMonth (buildMonths year rows) (start_month - 1)
    let m := maxValue months_shows
    some (months_shows.map (fun p => (p.1, roundHalfEven (p.2 * 100) m)))

/-- Specification-side aggregate, following the spec's words: the sum of
the values of all (non-zero) weeks whose Monday falls in month `m`. -/
def monthTotalSpec (year : Nat) (rows : List (Nat × Nat)) (m : Nat) : Nat :=
  ((rows.filter (fun p => p.1 != 0 && monthOfWeekMonday year p.1 == m)).map
    Prod.snd).sum

/-- Association-list lookup (dict access). -/
def lookupMonth : List (Nat × Nat) → Nat → Option Nat
  | [], _ => none
  | (k, x) :: rest, m => if k = m then some x else lookupMonth rest m

def valueOf (l : List (Nat × Nat)) (m : Nat) : Nat := (lookupMonth l m).getD 0

theorem lookupMonth_addToMonths_same (l : List (Nat × Nat)) (m v : Nat) :
    lookupMonth (addToMonths l m v) m = some (valueOf l m + v) := by
  induction l with
  | nil => simp [addToMonths, lookupMonth, valueOf]
  | cons p rest ih =>
    obtain ⟨k, x⟩ := p
    by_cases hk : k = m
    · subst hk
      simp [addToMonths, lookupMonth, valueOf]
    · simp [addToMonths, lookupMonth, hk, valueOf, ih]

theorem lookupMonth_addToMonths_ne (l : List (Nat × Nat)) (m v m' : Nat)
    (h : m' ≠ m) :
    lookupMonth (addToMonths l m v) m' = lookupMonth l m' := by
  induction l with
  | nil => simp [addToMonths, lookupMonth, Ne.symm h]
  | cons p rest ih =>
    obtain ⟨k, x⟩ := p
    by_cases hk : k = m
    · subst hk
      simp [addToMonths, lookupMonth, Ne.symm h]
    · by_cases hk' : k = m'
      · subst hk'
        simp [addToMonths, lookupMonth, hk]
      · simp [addToMonths, lookupMonth, hk, hk', ih]

theorem mem_keys_addToMonths (l : List (Nat × Nat)) (m v m' : Nat) :
    m' ∈ (addToMonths l m v).map Prod.fst ↔
      m' ∈ l.map Prod.fst ∨ m' = m := by
  induction l with
  | nil => simp [addToMonths]
  | cons p rest ih =>
    obtain ⟨k, x⟩ := p
    by_cases hk : k = m
    · subst hk
      simp [addToMonths]
      tauto
    · simp [addToMonths, hk, ih]
      tauto

theorem nodup_keys_addToMonths (l : List (Nat × Nat)) (m v : Nat)
    (h : (l.map Prod.fst).Nodup) :
    ((addToMonths l m v).map Prod.fst).Nodup := by
  induction l with
  | nil => simp [addToMonths]
  | cons p rest ih =>
    obtain ⟨k, x⟩ := p
    simp only [List.map_cons, List.nodup_cons] at h
    obtain ⟨hk_not, hrest⟩ := h
    by_cases hk : k = m
    · subst hk
      simp only [addToMonths, if_pos rfl, if_true, List.map_cons,
        List.nodup_cons]
      exact ⟨hk_not, hrest⟩
    · simp only [addToMonths, if_neg hk, List.map_cons, List.nodup_cons]
      refine ⟨?_, ih hrest⟩
      rw [mem_keys_addToMonths]
      push_neg
      exact ⟨hk_not, hk⟩

theorem valueOf_addToMonths_same (l : List (Nat × Nat)) (m v : Nat) :
    valueOf (addToMonths l m v) m = valueOf l m + v := by
  simp [valueOf, lookupMonth_addToMonths_same]

theorem valueOf_addToMonths_ne (l : List (Nat × Nat)) (m v m' : Nat)
    (h : m' ≠ m) : valueOf (addToMonths l m v) m' = valueOf l m' := by
  simp [valueOf, lookupMonth_addToMonths_ne l m v m' h]

theorem monthTotalSpec_nil (year m : Nat) : monthTotalSpec year [] m = 0 := rfl

theorem monthTotalSpec_cons (year : Nat) (p : Nat × Nat)
    (rows : List (Nat × Nat)) (m : Nat) :
    monthTotalSpec year (p :: rows) m =
      (if p.1 ≠ 0 ∧ monthOfWeekMonday year p.1 = m then p.2 else 0) +
        monthTotalSpec year rows m := by
  simp only [monthTotalSpec, List.filter_cons]
  by_cases h : p.1 ≠ 0 ∧ monthOfWeekMonday year p.1 = m
  · have hb : (p.1 != 0 && monthOfWeekMonday year p.1 == m) = true := by
      simp [h.1, h.2]
    rw [if_pos hb, if_pos h]
    simp
  · have hb : ¬ ((p.1 != 0 && monthOfWeekMonday year p.1 == m) = true) := by
      simp only [Bool.and_eq_true, bne_iff_ne, beq_iff_eq]
      tauto
    rw [if_neg hb, if_neg h]
    simp

theorem foldl_months_valueOf (year : Nat) :
    ∀ (rows acc : List (Nat × Nat)) (m : Nat),
      valueOf (rows.foldl (fun acc p => if p.1 = 0 then acc
          else addToMonths acc (monthOfWeekMonday year p.1) p.2) acc) m =
        valueOf acc m + monthTotalSpec year rows m := by
  intro rows
  induction rows with
  | nil =>
    intro acc m
    simp [monthTotalSpec]
  | cons p rest ih =>
    intro acc m
    rw [List.foldl_cons, monthTotalSpec_cons]
    by_cases h0 : p.1 = 0
    · rw [if_pos h0, ih]
      have hcond : ¬ (p.1 ≠ 0 ∧ monthOfWeekMonday year p.1 = m) := by tauto
      rw [if_neg hcond]
      omega
    · rw [if_neg h0, ih]
      by_cases hm : monthOfWeekMonday year p.1 = m
      · rw [hm, valueOf_addToMonths_same, if_pos ⟨h0, rfl⟩]
        omega
      · rw [valueOf_addToMonths_ne _ _ _ _ (fun he => hm he.symm),
          if_neg (by tauto)]
        omega

theorem foldl_months_mem_keys (year : Nat) :
    ∀ (rows acc : List (Nat × Nat)) (m : Nat),
      m ∈ ((rows.foldl (fun acc p => if p.1 = 0 then acc
          else addToMonths acc (monthOfWeekMonday year p.1) p.2)
            acc).map Prod.fst) ↔
        m ∈ acc.map Prod.fst ∨
          ∃ p ∈ rows, p.1 ≠ 0 ∧ monthOfWeekMonday year p.1 = m := by
  intro rows
  induction rows with
  | nil =>
    intro acc m
    simp
  | cons p rest ih =>
    intro acc m
    rw [List.foldl_cons]
    by_cases h0 : p.1 = 0
    · rw [if_pos h0, ih]
      constructor
      · rintro (h | ⟨q, hq1, hq2⟩)
        · exact Or.inl h
        · exact Or.inr ⟨q, List.mem_cons_of_mem p hq1, hq2⟩
      · rintro (h | ⟨q, hq1, hq2⟩)
        · exact Or.inl h
        · rcases List.mem_cons.mp hq1 with heq | hmem
          · subst heq
            exact absurd h0 hq2.1
          · exact Or.inr ⟨q, hmem, hq2⟩
    · rw [if_neg h0, ih, mem_keys_addToMonths]
      constructor
      · rintro ((h | h) | ⟨q, hq1, hq2⟩)
        · exact Or.inl h
        · exact Or.inr ⟨p, List.mem_cons_self p rest, h0, h.symm⟩
        · exact Or.inr ⟨q, List.mem_cons_of_mem p hq1, hq2⟩
      · rintro (h | ⟨q, hq1, hq2⟩)
        · exact Or.inl (Or.inl h)
        · rcases List.mem_cons.mp hq1 with heq | hmem
          · subst heq
            exact Or.inl (Or.inr hq2.2.symm)
          · exact Or.inr ⟨q, hmem, hq2⟩

theorem foldl_months_nodup (year : Nat) :
    ∀ (rows acc : List (Nat × Nat)),
      (acc.map Prod.fst).Nodup →
      (((rows.foldl (fun acc p => if p.1 = 0 then acc
          else addToMonths acc (monthOfWeekMonday year p.1) p.2)
            acc).map Prod.fst)).Nodup := by
  intro rows
  induction rows with
  | nil =>
    intro acc h
    simpa using h
  | cons p rest ih =>
    intro acc h
    rw [List.foldl_cons]
    by_cases h0 : p.1 = 0
    · rw [if_pos h0]
      exact ih acc h
    · rw [if_neg h0]
      exact ih _ (nodup_keys_addToMonths acc _ _ h)

theorem lookupMonth_eq_some_of_mem :
    ∀ (l : List (Nat × Nat)), (l.map Prod.fst).Nodup →
      ∀ m v, (m, v) ∈ l → lookupMonth l m = some v := by
  intro l
  induction l with
  | nil =>
    intro _ m v h
    simp at h
  | cons q rest ih =>
    intro hnd m v h
    obtain ⟨k, x⟩ := q
    simp only [List.map_cons, List.nodup_cons] at hnd
    obtain ⟨hk_not, hrest⟩ := hnd
    rcases List.mem_cons.mp h with heq | hmem
    · injection heq with h1 h2
      subst h1
      subst h2
      simp [lookupMonth]
    · by_cases hk : k = m
      · subst hk
        exfalso
        exact hk_not (List.mem_map.mpr ⟨(k, v), hmem, rfl⟩)
      · simp only [lookupMonth, if_neg hk]
        exact ih hrest m v hmem

theorem mem_of_lookupMonth :
    ∀ (l : List (Nat × Nat)) (m v : Nat),
      lookupMonth l m = some v → (m, v) ∈ l := by
  intro l
  induction l with
  | nil =>
    intro m v h
    simp [lookupMonth] at h
  | cons q rest ih =>
    intro m v h
    obtain ⟨k, x⟩ := q
    by_cases hk : k = m
    · subst hk
      simp only [lookupMonth, if_pos rfl, if_true, Option.some.injEq] at h
      subst h
      exact List.mem_cons_self _ _
    · simp only [lookupMonth, if_neg hk] at h
      exact List.mem_cons_of_mem _ (ih m v h)

theorem mem_removeMonth (l : List (Nat × Nat)) (m0 : Nat) (p : Nat × Nat) :
    p ∈ removeMonth l m0 ↔ p ∈ l ∧ p.1 ≠ m0 := by
  simp [removeMonth, List.mem_filter]

theorem nodup_keys_removeMonth (l : List (Nat × Nat)) (m0 : Nat)
    (h : (l.map Prod.fst).Nodup) :
    ((removeMonth l m0).map Prod.fst).Nodup :=
  ((List.filter_sublist l).map Prod.fst).nodup h

theorem removeMonth_cons (k x m0 : Nat) (rest : List (Nat × Nat)) :
    removeMonth ((k, x) :: rest) m0 =
      if k = m0 then removeMonth rest m0
      else (k, x) :: removeMonth rest m0 := by
  simp only [removeMonth, List.filter_cons]
  by_cases hk : k = m0
  · simp [hk]
  · simp [hk]

theorem lookupMonth_removeMonth_ne (l : List (Nat × Nat)) (m0 m : Nat)
    (h : m ≠ m0) :
    lookupMonth (removeMonth l m0) m = lookupMonth l m := by
  induction l with
  | nil => rfl
  | cons q rest ih =>
    obtain ⟨k, x⟩ := q
    rw [removeMonth_cons]
    by_cases hk0 : k = m0
    · rw [if_pos hk0, ih]
      have hkm : ¬ (k = m) := by
        rw [hk0]
        exact Ne.symm h
      simp [lookupMonth, hkm]
    · rw [if_neg hk0]
      by_cases hk : k = m
      · subst hk
        simp [lookupMonth]
      · simp only [lookupMonth, if_neg hk]
        exact ih

theorem le_foldr_max (xs : List Nat) (a : Nat) (h : a ∈ xs) :
    a ≤ xs.foldr max 0 := by
  induction xs with
  | nil => simp at h
  | cons b xs ih =>
    rcases List.mem_cons.mp h with heq | hmem
    · subst heq
      exact le_max_left a _
    · exact le_trans (ih hmem) (le_max_right b _)

theorem foldr_max_mem (xs : List Nat) (h : xs ≠ []) :
    xs.foldr max 0 ∈ xs := by
  induction xs with
  | nil => exact absurd rfl h
  | cons b xs ih =>
    cases xs with
    | nil => simp
    | cons c ys =>
      have hne : c :: ys ≠ [] := by simp
      rcases le_total b ((c :: ys).foldr max 0) with hle | hle
      · rw [List.foldr_cons, max_eq_right hle]
        exact List.mem_cons_of_mem b (ih hne)
      · rw [List.foldr_cons, max_eq_left hle]
        exact List.mem_cons_self b _

/-- C8: for a non-empty query result with at least one non-zero week whose
Monday-month survives the discard, the month aggregation adds each week's
value to the month containing that week's Monday (per the `%Y-Www-1`
expansion), drops the month `start_month - 1`, and rescales every surviving
month to 0-100 of the new per-phrase maximum, rounded to integers
(half-to-even): the result has exactly one entry per surviving hit month,
whose value is `round(sum * 100 / M)` with `M` the largest surviving
monthly sum. -/
theorem claim_C8_month_aggregation (year start_month : Nat)
    (rows : List (Nat × Nat)) (hne : rows ≠ [])
    (hrem : ∃ p ∈ rows, p.1 ≠ 0 ∧
      monthOfWeekMonday year p.1 ≠ start_month - 1) :
    ∃ out M,
      get_google_trends_plot_by_month year start_month rows = some out ∧
      (∀ v, (start_month - 1, v) ∉ out) ∧
      (out.map Prod.fst).Nodup ∧
      (∀ m, (∃ v, (m, v) ∈ out) ↔
        (m ≠ start_month - 1 ∧
          ∃ p ∈ rows, p.1 ≠ 0 ∧ monthOfWeekMonday year p.1 = m)) ∧
      (∀ m v, (m, v) ∈ out →
        v = roundHalfEven (monthTotalSpec year rows m * 100) M) ∧
      (∀ m, m ≠ start_month - 1 →
        (∃ p ∈ rows, p.1 ≠ 0 ∧ monthOfWeekMonday year p.1 = m) →
        monthTotalSpec year rows m ≤ M) ∧
      (∃ m, m ≠ start_month - 1 ∧
        (∃ p ∈ rows, p.1 ≠ 0 ∧ monthOfWeekMonday year p.1 = m) ∧
        monthTotalSpec year rows m = M) := by
  have hAnodup : ((buildMonths year rows).map Prod.fst).Nodup :=
    foldl_months_nodup year rows [] (by simp)
  have hAval : ∀ m, valueOf (buildMonths year rows) m =
      monthTotalSpec year rows m := by
    intro m
    have h := foldl_months_valueOf year rows [] m
    simpa [buildMonths, valueOf, lookupMonth] using h
  have hAkeys : ∀ m, m ∈ (buildMonths year rows).map Prod.fst ↔
      ∃ p ∈ rows, p.1 ≠ 0 ∧ monthOfWeekMonday year p.1 = m := by
    intro m
    have h := foldl_months_mem_keys year rows [] m
    simpa [buildMonths] using h
  set A := buildMonths year rows with hA
  set R := removeMonth A (start_month - 1) with hR
  set M := maxValue R with hM
  have hRnodup : (R.map Prod.fst).Nodup := nodup_keys_removeMonth A _ hAnodup
  have hRval : ∀ p, p ∈ R → p.2 = monthTotalSpec year rows p.1 := by
    rintro ⟨pm, pv⟩ hp
    obtain ⟨hpA, hpne⟩ := (mem_removeMonth A _ _).mp hp
    have hlook : lookupMonth A pm = some pv :=
      lookupMonth_eq_some_of_mem A hAnodup pm pv hpA
    have : valueOf A pm = pv := by simp [valueOf, hlook]
    rw [← hAval pm, this]
  have hRmem_of_hit : ∀ m, m ≠ start_month - 1 →
      (∃ p ∈ rows, p.1 ≠ 0 ∧ monthOfWeekMonday year p.1 = m) →
      ∃ v, (m, v) ∈ R := by
    intro m hm hhit
    obtain ⟨p, hpA, hpfst⟩ := List.mem_map.mp ((hAkeys m).mpr hhit)
    refine ⟨p.2, ?_⟩
    rw [mem_removeMonth]
    constructor
    · rw [show (m, p.2) = p from by rw [← hpfst]]
      exact hpA
    · exact hm
  have hle_M : ∀ p, p ∈ R → p.2 ≤ M :=
    fun p hp => le_foldr_max (R.map Prod.snd) p.2
      (List.mem_map.mpr ⟨p, hp, rfl⟩)
  have hRne : R ≠ [] := by
    obtain ⟨p, hp, h0, hm⟩ := hrem
    obtain ⟨v, hv⟩ := hRmem_of_hit _ hm ⟨p, hp, h0, rfl⟩
    exact List.ne_nil_of_mem hv
  have hMmem : M ∈ R.map Prod.snd := by
    apply foldr_max_mem
    simpa using hRne
  have hout : get_google_trends_plot_by_month year start_month rows =
      some (R.map (fun p => (p.1, roundHalfEven (p.2 * 100) M))) := by
    rw [get_google_trends_plot_by_month,
      if_neg (by simp [List.isEmpty_iff, hne])]
  refine ⟨R.map (fun p => (p.1, roundHalfEven (p.2 * 100) M)), M, hout,
    ?_, ?_, ?_, ?_, ?_, ?_⟩
  · intro v hv
    obtain ⟨p, hp, heq⟩ := List.mem_map.mp hv
    injection heq with h1 h2
    exact ((mem_removeMonth A _ _).mp hp).2 h1
  · rw [List.map_map]
    exact hRnodup
  · intro m
    constructor
    · rintro ⟨v, hv⟩
      obtain ⟨p, hp, heq⟩ := List.mem_map.mp hv
      injection heq with h1 h2
      obtain ⟨hpA, hpne⟩ := (mem_removeMonth A _ _).mp hp
      subst h1
      refine ⟨hpne, (hAkeys p.1).mp ?_⟩
      exact List.mem_map.mpr ⟨p, hpA, rfl⟩
    · rintro ⟨hm, hhit⟩
      obtain ⟨v, hv⟩ := hRmem_of_hit m hm hhit
      exact ⟨roundHalfEven (v * 100) M,
        List.mem_map.mpr ⟨(m, v), hv, rfl⟩⟩
  · intro m v hv
    obtain ⟨p, hp, heq⟩ := List.mem_map.mp hv
    injection heq with h1 h2
    subst h1
    rw [← h2, hRval p hp]
  · intro m hm hhit
    obtain ⟨v, hv⟩ := hRmem_of_hit m hm hhit
    have hveq : v = monthTotalSpec year rows m := hRval (m, v) hv
    rw [← hveq]
    exact hle_M (m, v) hv
  · obtain ⟨p, hp, hsnd⟩ := List.mem_map.mp hMmem
    obtain ⟨hpA, hpne⟩ := (mem_removeMonth A _ _).mp hp
    refine ⟨p.1, hpne, (hAkeys p.1).mp
      (List.mem_map.mpr ⟨p, hpA, rfl⟩), ?_⟩
    rw [← hRval p hp]
    exact hsnd

/-- A concrete aggregation: year 2022, weeks 1 and 5 (Mondays Jan 3 and
Jan 31, both in month 1) with values 50 and 100, start_month 1. -/
theorem claim_C8_month_aggregation_witness :
    (([(1, 50), (5, 100)] : List (Nat × Nat)) ≠ []) ∧
    (∃ p ∈ ([(1, 50), (5, 100)] : List (Nat × Nat)), p.1 ≠ 0 ∧
      monthOfWeekMonday 2022 p.1 ≠ 1 - 1) ∧
    (∃ out M,
      get_google_trends_plot_by_month 2022 1 [(1, 50), (5, 100)] =
        some out ∧
      (∀ v, (1 - 1, v) ∉ out) ∧
      (out.map Prod.fst).Nodup ∧
      (∀ m, (∃ v, (m, v) ∈ out) ↔
        (m ≠ 1 - 1 ∧ ∃ p ∈ ([(1, 50), (5, 100)] : List (Nat × Nat)),
          p.1 ≠ 0 ∧ monthOfWeekMonday 2022 p.1 = m)) ∧
      (∀ m v, (m, v) ∈ out →
        v = roundHalfEven (monthTotalSpec 2022 [(1, 50), (5, 100)] m * 100)
          M) ∧
      (∀ m, m ≠ 1 - 1 →
        (∃ p ∈ ([(1, 50), (5, 100)] : List (Nat × Nat)), p.1 ≠ 0 ∧
          monthOfWeekMonday 2022 p.1 = m) →
        monthTotalSpec 2022 [(1, 50), (5, 100)] m ≤ M) ∧
      (∃ m, m ≠ 1 - 1 ∧
        (∃ p ∈ ([(1, 50), (5, 100)] : List (Nat × Nat)), p.1 ≠ 0 ∧
          monthOfWeekMonday 2022 p.1 = m) ∧
        monthTotalSpec 2022 [(1, 50), (5, 100)] m = M)) :=
  ⟨by decide, by decide,
   claim_C8_month_aggregation 2022 1 [(1, 50), (5, 100)] (by decide)
     (by decide)⟩

end WordStat
